import Mathlib

/-!
Verification of the contextify processing core (`src/storage/sqlite.ts`,
`src/services/topic-generation.ts`, `src/services/base-processor.ts`).

The SQLite tables are embedded as Lean lists of records; each storage method
is a pure function on a `SQLiteStorage` state.  Timestamps are integers
(milliseconds since the epoch): the code stores ISO-8601 strings whose
lexicographic order coincides with chronological order, so SQL comparisons
on `publish_date` become integer comparisons here.  `BEGIN IMMEDIATE`
transactions serialize, so a claim call is one atomic state transition and
N concurrent claims are a sequence of N such transitions.
-/

namespace Contextify

/-- Status values of the `topics_status` column
(`CHECK (topics_status IN ('pending','processing','done','error'))`). -/
inductive ProcessingStatus where
  | pending
  | processing
  | done
  | error
deriving DecidableEq, Repr

/-- A row of the `raw_content` table. -/
structure RawContentRow where
  id : String
  source : String
  account : String
  title : String
  content : String
  publish_date : Int
  topics_status : ProcessingStatus
deriving DecidableEq, Repr

/-- A row of the `topics` table. -/
structure TopicRow where
  id : Nat
  raw_content_id : String
  name : String
  content : String
  keywords : String
  generated_at : Int
  generated_by_model : String
deriving DecidableEq, Repr

/-- A row of the `channel_metadata` table. -/
structure ChannelMetadataRow where
  account_name : String
  source : String
  channel_id : String
  channel_title : Option String
  subscriber_count : Option Int
  resolved_at : Int
  last_checked : Int
deriving DecidableEq, Repr

/-- The durable state held by `SQLiteStorage`: the three tables plus the
rowid counter used for `topics.id` (INTEGER PRIMARY KEY). -/
structure SQLiteStorage where
  raw_content : List RawContentRow
  topics : List TopicRow
  channel_metadata : List ChannelMetadataRow
  nextTopicId : Nat
deriving DecidableEq, Repr

/-- Record type `RawContentRecord` from `src/storage/models.ts`. -/
structure RawContentRecord where
  id : String
  source : String
  account : String
  title : String
  content : String
  publishDate : Int
  topicsStatus : ProcessingStatus
deriving DecidableEq, Repr

/-- Method `SQLiteStorage.mapRawRow`. -/
def mapRawRow (row : RawContentRow) : RawContentRecord :=
  { id := row.id
    source := row.source
    account := row.account
    title := row.title
    content := row.content
    publishDate := row.publish_date
    topicsStatus := row.topics_status }

/-- Argument record of `SQLiteStorage.insertRawContent`. -/
structure InsertItem where
  id : String
  source : String
  account : String
  title : String
  content : String
  publishDate : Int
deriving DecidableEq, Repr

/-- Method `SQLiteStorage.insertRawContent`: `INSERT ... ON CONFLICT(id) DO UPDATE SET
source, account, title, content, publish_date` — the `topics_status` column is
not in the update list, and a fresh row gets the column default `'pending'`. -/
def insertRawContent (s : SQLiteStorage) (item : InsertItem) : SQLiteStorage :=
  if s.raw_content.any (fun r => r.id = item.id) then
    { s with raw_content := s.raw_content.map (fun r =>
        if r.id = item.id then
          { r with
            source := item.source
            account := item.account
            title := item.title
            content := item.content
            publish_date := item.publishDate }
        else r) }
  else
    { s with raw_content := s.raw_content ++
        [{ id := item.id
           source := item.source
           account := item.account
           title := item.title
           content := item.content
           publish_date := item.publishDate
           topics_status := ProcessingStatus.pending }] }

/-- Query `SELECT * FROM raw_content WHERE topics_status = 'pending'
ORDER BY publish_date ASC LIMIT 1`: the first row (in scan order) whose
publish date is minimal among the pending rows of the given list. -/
def minByPublishDate : List RawContentRow → Option RawContentRow
  | [] => none
  | r :: rest =>
    match minByPublishDate rest with
    | none => some r
    | some b => if r.publish_date ≤ b.publish_date then some r else some b

/-- Method `SQLiteStorage.claimRawContentForTopics`: inside one `BEGIN IMMEDIATE`
transaction, select the pending row with the earliest `publish_date`; if none,
commit and return `null` leaving the state unchanged; otherwise set that row's
`topics_status` to `'processing'`, commit, and return the row mapped through
`mapRawRow` with `topics_status = 'processing'`.  The transaction is exclusive,
so the whole call is a single atomic transition. -/
def claimRawContentForTopics (s : SQLiteStorage) :
    Option RawContentRecord × SQLiteStorage :=
  match minByPublishDate (s.raw_content.filter
      (fun r => r.topics_status = ProcessingStatus.pending)) with
  | none => (none, s)
  | some row =>
    (some (mapRawRow { row with topics_status := ProcessingStatus.processing }),
     { s with raw_content := s.raw_content.map (fun r =>
         if r.id = row.id then { r with topics_status := ProcessingStatus.processing }
         else r) })

/-- Argument entries of `SQLiteStorage.replaceTopics`. -/
structure TopicInput where
  name : String
  content : String
  keywords : String
  generatedAt : Int
  generatedByModel : String
deriving DecidableEq, Repr

/-- The rows inserted by `replaceTopics`, with consecutive fresh rowids. -/
def insertTopicRows (rawContentId : String) (nextId : Nat) :
    List TopicInput → List TopicRow
  | [] => []
  | t :: ts =>
    { id := nextId
      raw_content_id := rawContentId
      name := t.name
      content := t.content
      keywords := t.keywords
      generated_at := t.generatedAt
      generated_by_model := t.generatedByModel } :: insertTopicRows rawContentId (nextId + 1) ts

/-- Method `SQLiteStorage.replaceTopics`: one transaction that runs
`DELETE FROM topics WHERE raw_content_id = ?` and then inserts every entry of
the given list for that id; committed as a unit. -/
def replaceTopics (s : SQLiteStorage) (rawContentId : String)
    (topics : List TopicInput) : SQLiteStorage :=
  { s with
    topics := s.topics.filter (fun t => ¬ t.raw_content_id = rawContentId) ++
      insertTopicRows rawContentId s.nextTopicId topics
    nextTopicId := s.nextTopicId + topics.length }

/-- Method `SQLiteStorage.setStageStatus` for the `'topics'` stage:
`UPDATE raw_content SET topics_status = ? WHERE id = ?`. -/
def setStageStatus (s : SQLiteStorage) (rawContentId : String)
    (status : ProcessingStatus) : SQLiteStorage :=
  { s with raw_content := s.raw_content.map (fun r =>
      if r.id = rawContentId then { r with topics_status := status } else r) }

/-- Method `SQLiteStorage.resetInFlightRawContent`:
`UPDATE raw_content SET topics_status = 'pending'
WHERE topics_status IN ('processing','error')`; called from `initialize`
before any worker starts. -/
def resetInFlightRawContent (s : SQLiteStorage) : SQLiteStorage :=
  { s with raw_content := s.raw_content.map (fun r =>
      if r.topics_status = ProcessingStatus.processing ∨
         r.topics_status = ProcessingStatus.error then
        { r with topics_status := ProcessingStatus.pending }
      else r) }

/-- One topic entry of the model response, as validated by
`TopicsResponseSchema` in `src/services/topic-generation.ts` (the keyword
field is spelled `keyowrds` in the schema and read under that name). -/
structure ModelTopic where
  name : String
  content : String
  keyowrds : String
deriving DecidableEq, Repr

/-- The parsed model response: `{ topics: [...] }`. -/
structure TopicsResponse where
  topics : List ModelTopic
deriving DecidableEq, Repr

/-- JavaScript `String.prototype.trim()`: drop leading and trailing
whitespace. -/
def jsTrim (a : String) : String :=
  String.mk
    (((a.toList.dropWhile Char.isWhitespace).reverse.dropWhile
        Char.isWhitespace).reverse)

/-- The per-entry post-processing of `TopicGenerationService.processContent`:
trim `name` and `content`, pass `keyowrds` through, stamp the generation time
and model. -/
def trimEntry (gAt : Int) (model : String) (t : ModelTopic) : TopicInput :=
  { name := jsTrim t.name
    content := jsTrim t.content
    keywords := t.keyowrds
    generatedAt := gAt
    generatedByModel := model }

/-- The pipeline `response.parsed?.topics?.map(...).filter(t => t.name && t.content)`:
trim every entry and drop the ones whose trimmed name or content is the empty
string (the JavaScript truthiness test on a string). -/
def cleanTopics (resp : TopicsResponse) (gAt : Int) (model : String) :
    List TopicInput :=
  (resp.topics.map (trimEntry gAt model)).filter
    (fun t => ¬ t.name = "" ∧ ¬ t.content = "")

/-- Method `TopicGenerationService.processContent` after the model call returned
`parsed` (`none` models an undefined `response.parsed`): clean the topics; if
the cleaned list is empty (or `parsed` is undefined) throw
`'LLM returned no topics'`; otherwise `replaceTopics` then
`setStageStatus(id, 'topics', 'done')`. -/
def processContent (s : SQLiteStorage) (content : RawContentRecord)
    (parsed : Option TopicsResponse) (gAt : Int) (model : String) :
    Except String SQLiteStorage :=
  match parsed with
  | none => Except.error "LLM returned no topics"
  | some resp =>
    match cleanTopics resp gAt model with
    | [] => Except.error "LLM returned no topics"
    | t :: ts =>
      Except.ok (setStageStatus (replaceTopics s content.id (t :: ts))
        content.id ProcessingStatus.done)

/-- Method `TopicGenerationService.handleTaskError` with a known task:
`setStageStatus(task.id, 'topics', 'error')`. -/
def handleTaskError (s : SQLiteStorage) (task : RawContentRecord) :
    SQLiteStorage :=
  setStageStatus s task.id ProcessingStatus.error

/-- One worker iteration of `BaseProcessorService.runWorker` applied to a
claimed topic task: run `processContent`; on an exception the catch block
invokes `handleTaskError(task, error)`, which marks the item `'error'`. -/
def runTopicTask (s : SQLiteStorage) (content : RawContentRecord)
    (parsed : Option TopicsResponse) (gAt : Int) (model : String) :
    SQLiteStorage :=
  match processContent s content parsed gAt model with
  | Except.ok s2 => s2
  | Except.error _ => handleTaskError s content

/-! ### Worker pool control flow (`BaseProcessorService`)

A worker's life is driven by what each loop iteration encounters; an
iteration either claims nothing, claims a task and processes it successfully,
or hits an exception (from the claim or the processing) and runs the error
hook, which itself either returns or throws. -/

/-- Outcome of one iteration of the `while (!this.shouldStop)` loop in
`BaseProcessorService.runWorker`.  `hookOk = false` means `handleTaskError`
itself threw. -/
inductive IterOutcome where
  | claimNone
  | taskOk
  | claimThrow (hookOk : Bool)
  | taskFail (hookOk : Bool)
deriving DecidableEq, Repr

/-- An iteration after which the loop reaches its next test of `shouldStop`:
everything except an error hook that throws. -/
def IterOutcome.continues : IterOutcome → Bool
  | .claimNone => true
  | .taskOk => true
  | .claimThrow hookOk => hookOk
  | .taskFail hookOk => hookOk

/-- How a worker ends: `stopped` when it observes the stop flag at the top of
the loop, `crashed` when an exception escapes `runWorker` and is caught by the
`.catch` attached in `BaseProcessorService.start`. -/
inductive WorkerEnd where
  | stopped
  | crashed
deriving DecidableEq, Repr

/-- Method `BaseProcessorService.runWorker`: consume the script of iteration
outcomes until it is exhausted (the stop flag) or an error hook throws; the
result also counts the iterations that actually ran.  An exception from the
hook is not caught inside the loop (`await this.handleTaskError(...)` sits in
the catch block itself), so it ends the worker at once: the remaining script
is never touched. -/
def runWorker : List IterOutcome → WorkerEnd × Nat
  | [] => (WorkerEnd.stopped, 0)
  | ev :: rest =>
    if ev.continues then
      let r := runWorker rest
      (r.1, r.2 + 1)
    else
      (WorkerEnd.crashed, 1)

/-- Method `BaseProcessorService.start`: spawn one `runWorker` per worker, each
wrapped in `.catch(error => this.logger.error(...))`, so a crash is logged at
the spawn boundary and never escapes; the workers are independent promises. -/
def startPool (scripts : List (List IterOutcome)) : List (WorkerEnd × Nat) :=
  scripts.map runWorker

/-! ### Query surface (`getTopicsByDateRange`) -/

/-- JavaScript `accountFilter.replace(/^@+/, '')` and SQLite
`ltrim(rc.account, '@')`: strip every leading `'@'`. -/
def stripLeadingAts (a : String) : String :=
  String.mk (a.toList.dropWhile (fun c => c = '@'))

/-- ASCII lower-casing, the common core of JavaScript `toLowerCase()` and
SQLite `LOWER(...)` on the account handles stored here. -/
def asciiLower (a : String) : String :=
  String.mk (a.toList.map Char.toLower)

/-- The normal form on which the account filter matches:
lower-cased, leading `'@'` stripped. -/
def normalizeAccount (a : String) : String :=
  asciiLower (stripLeadingAts a)

/-- One row of the `getTopicsByDateRange` result set. -/
structure TopicSummaryRow where
  topicId : Nat
  topicName : String
  account : String
  source : String
  publishDate : Int
  subscriberCount : Option Int
deriving DecidableEq, Repr

/-- The join `FROM topics t INNER JOIN raw_content rc ON rc.id = t.raw_content_id`. -/
def joinTopicRaw (s : SQLiteStorage) : List (TopicRow × RawContentRow) :=
  s.topics.flatMap (fun t =>
    (s.raw_content.filter (fun rc => rc.id = t.raw_content_id)).map
      (fun rc => (t, rc)))

/-- The join `LEFT JOIN channel_metadata cm ON cm.account_name = rc.account AND
cm.source = rc.source`, then `subscriber_count ?? null` (`account_name` is the
table's primary key, so at most one row matches). -/
def lookupSubscriberCount (s : SQLiteStorage) (rc : RawContentRow) :
    Option Int :=
  match s.channel_metadata.find? (fun cm =>
      cm.account_name = rc.account ∧ cm.source = rc.source) with
  | some cm => cm.subscriber_count
  | none => none

/-- The clause `ORDER BY rc.publish_date DESC, t.generated_at DESC` as a relation:
descending lexicographic order on (publish date, generation time). -/
def queryOrder (a b : TopicRow × RawContentRow) : Prop :=
  b.2.publish_date < a.2.publish_date ∨
    (b.2.publish_date = a.2.publish_date ∧ b.1.generated_at ≤ a.1.generated_at)

instance : DecidableRel queryOrder := fun a b => by
  unfold queryOrder; infer_instance

instance : IsTotal (TopicRow × RawContentRow) queryOrder where
  total a b := by
    unfold queryOrder
    rcases lt_trichotomy a.2.publish_date b.2.publish_date with h | h | h
    · exact Or.inr (Or.inl h)
    · rcases le_total b.1.generated_at a.1.generated_at with h2 | h2
      · exact Or.inl (Or.inr ⟨h.symm, h2⟩)
      · exact Or.inr (Or.inr ⟨h, h2⟩)
    · exact Or.inl (Or.inl h)

instance : IsTrans (TopicRow × RawContentRow) queryOrder where
  trans a b c hab hbc := by
    unfold queryOrder at *
    rcases hab with h1 | ⟨h1, h1g⟩ <;> rcases hbc with h2 | ⟨h2, h2g⟩
    · exact Or.inl (h2.trans h1)
    · exact Or.inl (h2 ▸ h1)
    · exact Or.inl (h1 ▸ h2)
    · exact Or.inr ⟨h2.trans h1, h2g.trans h1g⟩

/-- The projection of a joined row into the result record of
`getTopicsByDateRange`. -/
def projectSummary (s : SQLiteStorage) (p : TopicRow × RawContentRow) :
    TopicSummaryRow :=
  { topicId := p.1.id
    topicName := p.1.name
    account := p.2.account
    source := p.2.source
    publishDate := p.2.publish_date
    subscriberCount := lookupSubscriberCount s p.2 }

/-- The WHERE clause of `getTopicsByDateRange`:
`rc.publish_date >= windowStart`, and when a normalized account filter is
present (JavaScript truthiness: non-null and non-empty)
`LOWER(ltrim(rc.account, '@')) = normalizedAccount`. -/
def dateRangeFilter (windowStart : Int) (normalizedAccount : Option String)
    (p : TopicRow × RawContentRow) : Bool :=
  decide (windowStart ≤ p.2.publish_date) &&
    (match normalizedAccount with
     | some n => if ¬ n = "" then decide (normalizeAccount p.2.account = n) else true
     | none => true)

/-- Method `SQLiteStorage.getTopicsByDateRange(days, accountFilter)` at current time
`now` (`Date.now()`): `windowStart = now − max(days, 1)·24·60·60·1000`;
`normalizedAccount = accountFilter ? strip-and-lower : null`; join topics with
their raw content, keep rows inside the window that match the filter, order
newest-first, and project. -/
def getTopicsByDateRange (s : SQLiteStorage) (now days : Int)
    (accountFilter : Option String) : List TopicSummaryRow :=
  let windowStart : Int := now - max days 1 * (24 * 60 * 60 * 1000)
  let normalizedAccount : Option String :=
    match accountFilter with
    | some a => if ¬ a = "" then some (normalizeAccount a) else none
    | none => none
  ((joinTopicRaw s).filter (dateRangeFilter windowStart normalizedAccount)
    |>.insertionSort queryOrder).map (projectSummary s)

/-- Projection of a stored topic row onto the data supplied by the caller of
`replaceTopics` (everything except the generated rowid). -/
def topicData (t : TopicRow) : String × String × String × Int × String :=
  (t.name, t.content, t.keywords, t.generated_at, t.generated_by_model)

/-- The same projection on a `replaceTopics` argument entry. -/
def inputData (t : TopicInput) : String × String × String × Int × String :=
  (t.name, t.content, t.keywords, t.generatedAt, t.generatedByModel)

/-- Number of rows with `topics_status = 'pending'`. -/
def pendingCount (s : SQLiteStorage) : Nat :=
  (s.raw_content.filter
    (fun r => r.topics_status = ProcessingStatus.pending)).length

/-- Results of `n` serialized `claimRawContentForTopics` calls: the
`BEGIN IMMEDIATE` write lock serializes concurrent claims, so `n` concurrent
calls execute as `n` atomic transitions in some order. -/
def claimResults : Nat → SQLiteStorage → List (Option RawContentRecord)
  | 0, _ => []
  | n + 1, s =>
    (claimRawContentForTopics s).1 ::
      claimResults n (claimRawContentForTopics s).2

/-! ### Concrete data used by the witness theorems -/

/-- A `processing` row left over from a crash. -/
def demoResetRow : RawContentRow :=
  ⟨"a", "yt", "A", "t", "c", 1, ProcessingStatus.processing⟩

/-- A store holding `demoResetRow` and a finished row. -/
def demoResetStore : SQLiteStorage :=
  ⟨[demoResetRow, ⟨"b", "yt", "B", "t", "c", 2, ProcessingStatus.done⟩],
   [], [], 0⟩

/-- Pending item with the earliest publish date (T1). -/
def demoT1 : RawContentRow := ⟨"v1", "yt", "A", "t1", "c1", 100, ProcessingStatus.pending⟩

/-- Pending item published at T2 > T1. -/
def demoT2 : RawContentRow := ⟨"v2", "yt", "A", "t2", "c2", 200, ProcessingStatus.pending⟩

/-- Pending item published at T3 > T2. -/
def demoT3 : RawContentRow := ⟨"v3", "yt", "A", "t3", "c3", 300, ProcessingStatus.pending⟩

/-- A store with three pending items, T1 not first in scan order. -/
def demoClaimStore : SQLiteStorage := ⟨[demoT2, demoT1, demoT3], [], [], 0⟩

/-- The record the first claim should return: T1, marked processing. -/
def demoClaimed : RawContentRecord :=
  mapRawRow { demoT1 with topics_status := ProcessingStatus.processing }

/-- The store after the first claim: T1 marked processing. -/
def demoClaimStore2 : SQLiteStorage :=
  ⟨[demoT2, { demoT1 with topics_status := ProcessingStatus.processing }, demoT3],
   [], [], 0⟩

/-- An existing done row re-ingested by `insertRawContent` in the C7 witness. -/
def demoUpsertRow : RawContentRow :=
  ⟨"v1", "yt", "A", "old title", "old content", 100, ProcessingStatus.done⟩

/-- A store holding `demoUpsertRow`. -/
def demoUpsertStore : SQLiteStorage := ⟨[demoUpsertRow], [], [], 0⟩

/-- The re-ingested payload for id `v1` with fresh fields. -/
def demoUpsertItem : InsertItem :=
  ⟨"v1", "yt", "A", "new title", "new content", 150⟩

/-- A store with exactly one pending item (and one done item). -/
def demoMutexStore : SQLiteStorage :=
  ⟨[⟨"v1", "yt", "A", "t", "c", 100, ProcessingStatus.pending⟩,
    ⟨"v2", "yt", "A", "t", "c", 50, ProcessingStatus.done⟩], [], [], 0⟩

/-- The claimed task record handed to the extraction stage in the C5/C6
witnesses. -/
def demoTask : RawContentRecord :=
  ⟨"v1", "yt", "A", "t1", "ETH rallies", 100, ProcessingStatus.processing⟩

/-- The store the extraction stage writes into: `v1` is processing and an
unrelated item `v9` already owns a topic row. -/
def demoTaskStore : SQLiteStorage :=
  ⟨[⟨"v1", "yt", "A", "t1", "ETH rallies", 100, ProcessingStatus.processing⟩,
    ⟨"v9", "yt", "B", "t9", "c9", 90, ProcessingStatus.done⟩],
   [⟨0, "v9", "Old", "old body", "old", 80, "m0"⟩], [], 1⟩

/-- A model response whose entries survive trimming. -/
def demoGoodResponse : TopicsResponse :=
  ⟨[⟨"  Ethereum Rally ", " Price moved ", "ETH"⟩]⟩

/-- The model response of the spec's empty-after-trim example:
`{topics: [{name: " ", content: " ", keyowrds: "x"}]}`. -/
def demoBlankResponse : TopicsResponse := ⟨[⟨" ", " ", "x"⟩]⟩

/-- Iterations a crashing worker survives before its error hook throws. -/
def demoCrashPre : List IterOutcome := [IterOutcome.claimNone, IterOutcome.taskOk]

/-- Iterations that would have followed the hook crash (never executed). -/
def demoCrashPost : List IterOutcome := [IterOutcome.taskOk]

/-- Three worker scripts: worker 1's error hook throws at its third
iteration; workers 0 and 2 run to their stop flag. -/
def demoScripts : List (List IterOutcome) :=
  [[IterOutcome.taskOk],
   demoCrashPre ++ IterOutcome.taskFail false :: demoCrashPost,
   [IterOutcome.claimNone]]

/-- Item published exactly 7×24h before the witness query time 700000000. -/
def demoRcIn : RawContentRow :=
  ⟨"in", "yt", "Alice", "t", "c", 95200000, ProcessingStatus.done⟩

/-- Item published 7×24h + 1s before the witness query time. -/
def demoRcOut : RawContentRow :=
  ⟨"out", "yt", "Alice", "t", "c", 95199000, ProcessingStatus.done⟩

/-- Topic row owned by `demoRcIn`. -/
def demoTIn : TopicRow := ⟨1, "in", "TIn", "c", "k", 10, "m"⟩

/-- Topic row owned by `demoRcOut`. -/
def demoTOut : TopicRow := ⟨2, "out", "TOut", "c", "k", 11, "m"⟩

/-- Store for the C9 witness: boundary items for Alice, one in-window item for
Bob, and a cached subscriber count for Alice. -/
def demoWindowStore : SQLiteStorage :=
  ⟨[demoRcIn, demoRcOut,
    ⟨"oth", "yt", "Bob", "t", "c", 600000000, ProcessingStatus.done⟩],
   [demoTIn, demoTOut, ⟨3, "oth", "TBob", "c", "k", 12, "m"⟩],
   [⟨"Alice", "yt", "ch1", some "Alice Ch", some 42, 0, 0⟩], 4⟩

end Contextify

namespace Contextify

/-! ### Helper lemmas -/

theorem minByPublishDate_eq_none {l : List RawContentRow} :
    minByPublishDate l = none ↔ l = [] := by
  cases l with
  | nil => simp [minByPublishDate]
  | cons r rest =>
    simp only [minByPublishDate]
    cases minByPublishDate rest with
    | none => simp
    | some b => by_cases h : r.publish_date ≤ b.publish_date <;> simp [h]

theorem minByPublishDate_mem {l : List RawContentRow} {r : RawContentRow}
    (h : minByPublishDate l = some r) : r ∈ l := by
  induction l generalizing r with
  | nil => simp [minByPublishDate] at h
  | cons a rest ih =>
    simp only [minByPublishDate] at h
    cases hm : minByPublishDate rest with
    | none =>
      simp only [hm, Option.some.injEq] at h
      subst h; exact List.mem_cons_self a rest
    | some b =>
      simp only [hm] at h
      by_cases hle : a.publish_date ≤ b.publish_date
      · rw [if_pos hle] at h
        simp only [Option.some.injEq] at h
        subst h; exact List.mem_cons_self a rest
      · rw [if_neg hle] at h
        simp only [Option.some.injEq] at h
        subst h; exact List.mem_cons_of_mem _ (ih hm)

theorem minByPublishDate_min {l : List RawContentRow} {r : RawContentRow}
    (h : minByPublishDate l = some r) :
    ∀ x ∈ l, r.publish_date ≤ x.publish_date := by
  induction l generalizing r with
  | nil => simp [minByPublishDate] at h
  | cons a rest ih =>
    intro x hx
    simp only [minByPublishDate] at h
    cases hm : minByPublishDate rest with
    | none =>
      have hrest : rest = [] := minByPublishDate_eq_none.mp hm
      subst hrest
      simp only [hm, Option.some.injEq] at h
      subst h
      simp only [List.mem_singleton] at hx
      subst hx; exact le_refl _
    | some b =>
      simp only [hm] at h
      by_cases hle : a.publish_date ≤ b.publish_date
      · rw [if_pos hle] at h
        simp only [Option.some.injEq] at h
        subst h
        rcases List.mem_cons.mp hx with rfl | hxr
        · exact le_refl _
        · exact le_trans hle (ih hm x hxr)
      · rw [if_neg hle] at h
        simp only [Option.some.injEq] at h
        subst h
        rcases List.mem_cons.mp hx with rfl | hxr
        · exact le_of_lt (lt_of_not_le hle)
        · exact ih hm x hxr

theorem insertTopicRows_id {id : String} {n : Nat} {ts : List TopicInput} :
    ∀ t ∈ insertTopicRows id n ts, t.raw_content_id = id := by
  induction ts generalizing n with
  | nil => simp [insertTopicRows]
  | cons a ts ih =>
    intro t ht
    simp only [insertTopicRows, List.mem_cons] at ht
    rcases ht with h | h
    · simp [h]
    · exact ih _ h

theorem insertTopicRows_map_data {id : String} {n : Nat} {ts : List TopicInput} :
    (insertTopicRows id n ts).map topicData = ts.map inputData := by
  induction ts generalizing n with
  | nil => simp [insertTopicRows]
  | cons a ts ih => simp [insertTopicRows, topicData, inputData, ih]

theorem replaceTopics_filter_eq (s : SQLiteStorage) (id : String)
    (ts : List TopicInput) :
    (replaceTopics s id ts).topics.filter (fun t => t.raw_content_id = id) =
      insertTopicRows id s.nextTopicId ts := by
  unfold replaceTopics
  rw [List.filter_append]
  have h1 : (s.topics.filter (fun t => ¬ t.raw_content_id = id)).filter
      (fun t => t.raw_content_id = id) = [] := by
    simp only [List.filter_filter]
    apply List.filter_eq_nil_iff.mpr
    intro a _
    by_cases h : a.raw_content_id = id <;> simp [h]
  have h2 : (insertTopicRows id s.nextTopicId ts).filter
      (fun t => t.raw_content_id = id) = insertTopicRows id s.nextTopicId ts := by
    apply List.filter_eq_self.mpr
    intro a ha
    simp [insertTopicRows_id a ha]
  rw [h1, h2, List.nil_append]

theorem replaceTopics_filter_ne (s : SQLiteStorage) (id : String)
    (ts : List TopicInput) :
    (replaceTopics s id ts).topics.filter (fun t => ¬ t.raw_content_id = id) =
      s.topics.filter (fun t => ¬ t.raw_content_id = id) := by
  unfold replaceTopics
  rw [List.filter_append]
  have h1 : (s.topics.filter (fun t => ¬ t.raw_content_id = id)).filter
      (fun t => ¬ t.raw_content_id = id) =
      s.topics.filter (fun t => ¬ t.raw_content_id = id) := by
    simp [List.filter_filter]
  have h2 : (insertTopicRows id s.nextTopicId ts).filter
      (fun t => ¬ t.raw_content_id = id) = [] := by
    apply List.filter_eq_nil_iff.mpr
    intro a ha
    simp [insertTopicRows_id a ha]
  rw [h1, h2, List.append_nil]

/-! ### Claim theorems -/

/-- C3.  `resetInFlightRawContent` (called once from `initialize`, before any
worker starts) sets every raw content row whose `topics_status` is
`'processing'` or `'error'` to `'pending'` and leaves rows whose status is
`'pending'` or `'done'` unchanged; the topics table and the row count are
untouched. -/
theorem resetInFlightRawContent_correct (s : SQLiteStorage) (i : Nat)
    (r : RawContentRow) (h : s.raw_content[i]? = some r) :
    ((r.topics_status = ProcessingStatus.processing ∨
        r.topics_status = ProcessingStatus.error) →
      (resetInFlightRawContent s).raw_content[i]? =
        some { r with topics_status := ProcessingStatus.pending }) ∧
    ((r.topics_status = ProcessingStatus.pending ∨
        r.topics_status = ProcessingStatus.done) →
      (resetInFlightRawContent s).raw_content[i]? = some r) ∧
    (resetInFlightRawContent s).topics = s.topics ∧
    (resetInFlightRawContent s).raw_content.length = s.raw_content.length := by
  refine ⟨?_, ?_, rfl, by simp [resetInFlightRawContent]⟩
  · intro hst
    simp only [resetInFlightRawContent, List.getElem?_map, h, Option.map_some']
    rw [if_pos hst]
  · intro hst
    simp only [resetInFlightRawContent, List.getElem?_map, h, Option.map_some']
    rw [if_neg]
    rcases hst with h1 | h1 <;> simp [h1]

/-- Witness for C3 on a concrete two-row store: the `processing` row becomes
`pending`, evaluated through the theorem. -/
theorem resetInFlightRawContent_correct_witness :
    demoResetStore.raw_content[0]? = some demoResetRow ∧
    (resetInFlightRawContent demoResetStore).raw_content[0]? =
      some { demoResetRow with topics_status := ProcessingStatus.pending } :=
  ⟨by decide,
   (resetInFlightRawContent_correct demoResetStore 0 demoResetRow
     (by decide)).1 (Or.inl (by decide))⟩

/-- C10.  `getTopicsByDateRange` clamps `days` with `Math.max(days, 1)`, so
every `days ≤ 1` (including `0` and negatives) behaves exactly like
`days = 1`, for any account filter. -/
theorem getTopicsByDateRange_clamps (s : SQLiteStorage) (now days : Int)
    (acc : Option String) (h : days ≤ 1) :
    getTopicsByDateRange s now days acc = getTopicsByDateRange s now 1 acc := by
  unfold getTopicsByDateRange
  rw [max_eq_right h, max_self]

/-- C4.  `replaceTopics(id, ts)` leaves the topics table holding, for that id,
exactly the rows given (same data, in order), leaves every other item's topic
rows unchanged, and does not touch `raw_content`; consequently
`replaceTopics(id, A)` followed by `replaceTopics(id, B)` leaves exactly `B`
for that id and other items' rows as they were. -/
theorem replaceTopics_correct (s : SQLiteStorage) (id : String)
    (A B : List TopicInput) :
    (((replaceTopics s id B).topics.filter
        (fun t => t.raw_content_id = id)).map topicData = B.map inputData) ∧
    ((replaceTopics s id B).topics.filter (fun t => ¬ t.raw_content_id = id) =
      s.topics.filter (fun t => ¬ t.raw_content_id = id)) ∧
    (((replaceTopics (replaceTopics s id A) id B).topics.filter
        (fun t => t.raw_content_id = id)).map topicData = B.map inputData) ∧
    ((replaceTopics (replaceTopics s id A) id B).topics.filter
        (fun t => ¬ t.raw_content_id = id) =
      s.topics.filter (fun t => ¬ t.raw_content_id = id)) ∧
    (replaceTopics s id B).raw_content = s.raw_content := by
  refine ⟨?_, replaceTopics_filter_ne s id B, ?_, ?_, rfl⟩
  · rw [replaceTopics_filter_eq, insertTopicRows_map_data]
  · rw [replaceTopics_filter_eq, insertTopicRows_map_data]
  · rw [replaceTopics_filter_ne, replaceTopics_filter_ne]

/-- C7.  `insertRawContent` updates `source`, `account`, `title`, `content`
and `publish_date` of an existing row with the same id while leaving
`topics_status` untouched, and appends a fresh row with the default status
`'pending'` when the id is unseen. -/
theorem insertRawContent_correct (s : SQLiteStorage) (item : InsertItem) :
    ((∃ r ∈ s.raw_content, r.id = item.id) →
      (insertRawContent s item).raw_content.length = s.raw_content.length ∧
      (∀ (i : Nat) (x : RawContentRow), s.raw_content[i]? = some x →
        (insertRawContent s item).raw_content[i]? = some (
          if x.id = item.id then
            { x with
              source := item.source
              account := item.account
              title := item.title
              content := item.content
              publish_date := item.publishDate }
          else x)) ∧
      (∀ (i : Nat) (x y : RawContentRow), s.raw_content[i]? = some x →
        (insertRawContent s item).raw_content[i]? = some y →
        y.topics_status = x.topics_status)) ∧
    ((∀ r ∈ s.raw_content, ¬ r.id = item.id) →
      (insertRawContent s item).raw_content =
        s.raw_content ++
          [⟨item.id, item.source, item.account, item.title, item.content,
            item.publishDate, ProcessingStatus.pending⟩]) := by
  constructor
  · intro hex
    have hany : s.raw_content.any (fun r => r.id = item.id) = true := by
      rw [List.any_eq_true]
      obtain ⟨r, hr, hid⟩ := hex
      exact ⟨r, hr, by simp [hid]⟩
    have hmap : ∀ (i : Nat) (x : RawContentRow), s.raw_content[i]? = some x →
        (insertRawContent s item).raw_content[i]? = some (
          if x.id = item.id then
            { x with
              source := item.source
              account := item.account
              title := item.title
              content := item.content
              publish_date := item.publishDate }
          else x) := by
      intro i x hx
      simp only [insertRawContent, hany, if_true, List.getElem?_map, hx,
        Option.map_some']
    refine ⟨by simp [insertRawContent, hany], hmap, ?_⟩
    intro i x y hx hy
    have := hmap i x hx
    rw [hy] at this
    simp only [Option.some.injEq] at this
    subst this
    by_cases hid : x.id = item.id <;> simp [hid]
  · intro hne
    have hany : s.raw_content.any (fun r => r.id = item.id) = false := by
      rw [List.any_eq_false]
      intro r hr
      simp [hne r hr]
    simp [insertRawContent, hany]

/-- Witness for C7: re-ingesting id `v1` over a `done` row updates the payload
fields and keeps `topics_status = 'done'`. -/
theorem insertRawContent_correct_witness :
    (demoUpsertRow ∈ demoUpsertStore.raw_content ∧
      demoUpsertRow.id = demoUpsertItem.id) ∧
    (insertRawContent demoUpsertStore demoUpsertItem).raw_content[0]? =
      some ⟨"v1", "yt", "A", "new title", "new content", 150,
        ProcessingStatus.done⟩ := by
  refine ⟨⟨by decide, by decide⟩, ?_⟩
  have h := ((insertRawContent_correct demoUpsertStore demoUpsertItem).1
    ⟨demoUpsertRow, by decide, by decide⟩).2.1 0 demoUpsertRow (by decide)
  rw [h]
  decide

/-- C1.  `claimRawContentForTopics` is one atomic transition: when no pending
row exists it returns `none` and changes nothing; when it returns a record,
that record is a pending row of minimal publish date re-labelled
`'processing'`, the stored copy of that row is now `'processing'`, every other
row is untouched, and the topics table is unchanged.  In particular, for
pending items with publish dates T1 < T2 < T3 the first claim returns the T1
item (witness). -/
theorem claimRawContentForTopics_correct (s : SQLiteStorage) :
    ((∀ r ∈ s.raw_content, ¬ r.topics_status = ProcessingStatus.pending) →
      claimRawContentForTopics s = (none, s)) ∧
    (∀ s2, claimRawContentForTopics s = (none, s2) →
      s2 = s ∧
      ∀ r ∈ s.raw_content, ¬ r.topics_status = ProcessingStatus.pending) ∧
    (∀ (rec : RawContentRecord) (s2 : SQLiteStorage),
      claimRawContentForTopics s = (some rec, s2) →
      rec.topicsStatus = ProcessingStatus.processing ∧
      s2.topics = s.topics ∧
      ∃ r0 ∈ s.raw_content,
        r0.topics_status = ProcessingStatus.pending ∧
        rec = mapRawRow { r0 with topics_status := ProcessingStatus.processing } ∧
        (∀ x ∈ s.raw_content, x.topics_status = ProcessingStatus.pending →
          r0.publish_date ≤ x.publish_date) ∧
        (∀ i : Nat, s2.raw_content[i]? = (s.raw_content[i]?).map
          (fun x : RawContentRow =>
            if x.id = r0.id then
              { x with topics_status := ProcessingStatus.processing }
            else x))) := by
  refine ⟨?_, ?_, ?_⟩
  · intro hnone
    have hfil : s.raw_content.filter
        (fun r => r.topics_status = ProcessingStatus.pending) = [] := by
      apply List.filter_eq_nil_iff.mpr
      intro a ha
      simp [hnone a ha]
    unfold claimRawContentForTopics
    rw [hfil]
    rfl
  · intro s2 h
    unfold claimRawContentForTopics at h
    cases hm : minByPublishDate (s.raw_content.filter
        (fun r => r.topics_status = ProcessingStatus.pending)) with
    | none =>
      simp only [hm] at h
      injection h with h1 h2
      subst h2
      refine ⟨rfl, ?_⟩
      have hfil := minByPublishDate_eq_none.mp hm
      intro r hr hpend
      have : r ∈ s.raw_content.filter
          (fun x => x.topics_status = ProcessingStatus.pending) := by
        simp [List.mem_filter, hr, hpend]
      rw [hfil] at this
      exact absurd this (List.not_mem_nil r)
    | some row =>
      simp only [hm] at h
      exact absurd (congrArg Prod.fst h) (by simp)
  · intro rec s2 h
    unfold claimRawContentForTopics at h
    cases hm : minByPublishDate (s.raw_content.filter
        (fun r => r.topics_status = ProcessingStatus.pending)) with
    | none =>
      simp only [hm] at h
      exact absurd (congrArg Prod.fst h) (by simp)
    | some row =>
      simp only [hm] at h
      injection h with h1 h2
      injection h1 with h1
      subst h1
      subst h2
      have hrowmem := minByPublishDate_mem hm
      have hrow := List.mem_filter.mp hrowmem
      have hrowraw : row ∈ s.raw_content := hrow.1
      have hrowpend : row.topics_status = ProcessingStatus.pending := by
        have := hrow.2
        simpa using this
      refine ⟨rfl, rfl, row, hrowraw, hrowpend, rfl, ?_, ?_⟩
      · intro x hx hpx
        apply minByPublishDate_min hm
        simp [List.mem_filter, hx, hpx]
      · intro i
        simp [List.getElem?_map]

/-- Witness for C1: with pending items published at 100 < 200 < 300 stored in
the order [T2, T1, T3], the first claim returns the T1 item marked
processing and updates exactly that row. -/
theorem claimRawContentForTopics_correct_witness :
    claimRawContentForTopics demoClaimStore = (some demoClaimed, demoClaimStore2) ∧
    demoClaimed.topicsStatus = ProcessingStatus.processing ∧
    demoClaimStore2.topics = demoClaimStore.topics := by
  have h := (claimRawContentForTopics_correct demoClaimStore).2.2
    demoClaimed demoClaimStore2 (by decide)
  exact ⟨by decide, h.1, h.2.1⟩

theorem pendingCount_zero_claim {s : SQLiteStorage} (h : pendingCount s = 0) :
    claimRawContentForTopics s = (none, s) := by
  unfold pendingCount at h
  have hfil := List.length_eq_zero.mp h
  unfold claimRawContentForTopics
  rw [hfil]
  rfl

theorem pendingCount_one_claim {s : SQLiteStorage} (h : pendingCount s = 1) :
    ∃ (rec : RawContentRecord) (s2 : SQLiteStorage),
      claimRawContentForTopics s = (some rec, s2) ∧
      rec.topicsStatus = ProcessingStatus.processing ∧
      (∃ r0 ∈ s.raw_content, r0.topics_status = ProcessingStatus.pending ∧
        rec = mapRawRow { r0 with topics_status := ProcessingStatus.processing }) ∧
      pendingCount s2 = 0 := by
  unfold pendingCount at h
  obtain ⟨r, hfil⟩ := List.length_eq_one.mp h
  have hclaim : claimRawContentForTopics s =
      (some (mapRawRow { r with topics_status := ProcessingStatus.processing }),
       { s with raw_content := s.raw_content.map (fun x =>
           if x.id = r.id then { x with topics_status := ProcessingStatus.processing }
           else x) }) := by
    unfold claimRawContentForTopics
    rw [hfil]
    rfl
  have hrmem : r ∈ s.raw_content.filter
      (fun x => x.topics_status = ProcessingStatus.pending) := by
    rw [hfil]; exact List.mem_singleton_self r
  have hr := List.mem_filter.mp hrmem
  refine ⟨_, _, hclaim, rfl, ⟨r, hr.1, by simpa using hr.2, rfl⟩, ?_⟩
  unfold pendingCount
  rw [List.length_eq_zero]
  apply List.filter_eq_nil_iff.mpr
  intro a ha
  obtain ⟨x, hx, rfl⟩ := List.mem_map.mp ha
  by_cases hid : x.id = r.id
  · simp [hid]
  · simp only [if_neg hid]
    intro hpend
    have : x ∈ s.raw_content.filter
        (fun y => y.topics_status = ProcessingStatus.pending) := by
      simp only [List.mem_filter, hx, true_and]
      simpa using hpend
    rw [hfil] at this
    simp only [List.mem_singleton] at this
    subst this
    exact hid rfl

theorem claimResults_pendingZero {s : SQLiteStorage} (h : pendingCount s = 0) :
    ∀ n, claimResults n s = List.replicate n none := by
  intro n
  induction n with
  | zero => rfl
  | succ n ih =>
    simp only [claimResults, pendingCount_zero_claim h]
    rw [ih]
    rfl

/-- C2.  `BEGIN IMMEDIATE` serializes claim transactions, so N concurrent
claim calls execute as N consecutive atomic claims in some order; against a
store with exactly one pending item, the first claim in that order returns the
item (now `'processing'`) and the remaining N−1 return `none`: exactly one
invocation succeeds, so at most one worker ever holds the item. -/
theorem claim_mutual_exclusion (N : Nat) (s : SQLiteStorage)
    (hN : 1 ≤ N) (h1 : pendingCount s = 1) :
    ∃ rec : RawContentRecord,
      claimResults N s = some rec :: List.replicate (N - 1) none ∧
      rec.topicsStatus = ProcessingStatus.processing ∧
      (claimResults N s).countP (fun r => r.isSome) = 1 ∧
      (claimResults N s).countP (fun r => r.isNone) = N - 1 := by
  obtain ⟨M, rfl⟩ : ∃ M, N = M + 1 := ⟨N - 1, (Nat.succ_pred_eq_of_pos hN).symm⟩
  obtain ⟨rec, s2, hclaim, hst, _, h0⟩ := pendingCount_one_claim h1
  have hlist : claimResults (M + 1) s = some rec :: List.replicate M none := by
    simp only [claimResults, hclaim]
    rw [claimResults_pendingZero h0 M]
  have hM : M + 1 - 1 = M := rfl
  refine ⟨rec, by rw [hlist, hM], hst, ?_, ?_⟩
  · rw [hlist, List.countP_cons]
    have : (List.replicate M (none : Option RawContentRecord)).countP
        (fun r => r.isSome) = 0 := by
      apply List.countP_eq_zero.mpr
      intro a ha
      rw [List.eq_of_mem_replicate ha]
      simp
    simp [this]
  · rw [hlist, hM, List.countP_cons]
    have h2 : (List.replicate M (none : Option RawContentRecord)).countP
          (fun r => r.isNone) =
        (List.replicate M (none : Option RawContentRecord)).length :=
      List.countP_eq_length.mpr (fun a ha => by
        rw [List.eq_of_mem_replicate ha]; rfl)
    rw [List.length_replicate] at h2
    simp [h2]

/-- Witness for C2 with N = 3 against a store holding exactly one pending
item: one success, two `none` results. -/
theorem claim_mutual_exclusion_witness :
    1 ≤ 3 ∧ pendingCount demoMutexStore = 1 ∧
    (claimResults 3 demoMutexStore).countP (fun r => r.isSome) = 1 ∧
    (claimResults 3 demoMutexStore).countP (fun r => r.isNone) = 2 := by
  obtain ⟨rec, hlist, hst, hc1, hc2⟩ :=
    claim_mutual_exclusion 3 demoMutexStore (by decide) (by decide)
  exact ⟨by decide, by decide, hc1, hc2⟩

/-- C5.  When `processContent` succeeds, it has stored (via `replaceTopics`
followed by `setStageStatus(id, 'topics', 'done')`) exactly the latest model
output after trimming — a non-empty list — as the item's topic rows, left other
items' topic rows unchanged, and the item's stage status is `'done'`. -/
theorem processContent_success (s : SQLiteStorage) (content : RawContentRecord)
    (parsed : Option TopicsResponse) (gAt : Int) (model : String)
    (s2 : SQLiteStorage)
    (h : processContent s content parsed gAt model = Except.ok s2) :
    ∃ resp, parsed = some resp ∧
      ¬ cleanTopics resp gAt model = [] ∧
      ((s2.topics.filter (fun t => t.raw_content_id = content.id)).map topicData =
        (cleanTopics resp gAt model).map inputData) ∧
      (s2.topics.filter (fun t => ¬ t.raw_content_id = content.id) =
        s.topics.filter (fun t => ¬ t.raw_content_id = content.id)) ∧
      (∀ r ∈ s2.raw_content, r.id = content.id →
        r.topics_status = ProcessingStatus.done) := by
  cases parsed with
  | none => simp [processContent] at h
  | some resp =>
    simp only [processContent] at h
    refine ⟨resp, rfl, ?_⟩
    cases hc : cleanTopics resp gAt model with
    | nil => rw [hc] at h; exact absurd h (by simp)
    | cons t ts =>
      rw [hc] at h
      simp only [Except.ok.injEq] at h
      subst h
      have htop : (setStageStatus (replaceTopics s content.id (t :: ts))
          content.id ProcessingStatus.done).topics =
          (replaceTopics s content.id (t :: ts)).topics := rfl
      refine ⟨by simp, ?_, ?_, ?_⟩
      · rw [htop, replaceTopics_filter_eq, insertTopicRows_map_data]
      · rw [htop, replaceTopics_filter_ne]
      · intro r hr hid
        simp only [setStageStatus] at hr
        obtain ⟨x, hx, rfl⟩ := List.mem_map.mp hr
        by_cases hxid : x.id = content.id
        · simp [hxid]
        · rw [if_neg hxid] at hid ⊢
          exact absurd hid hxid

/-- Witness for C5: `processContent` on the concrete store/response stores one
trimmed topic for `v1`, keeps `v9`'s topic row, and marks `v1` done. -/
theorem processContent_success_witness :
    processContent demoTaskStore demoTask (some demoGoodResponse) 120 "m1" =
      Except.ok (setStageStatus
        (replaceTopics demoTaskStore "v1"
          [⟨"Ethereum Rally", "Price moved", "ETH", 120, "m1"⟩])
        "v1" ProcessingStatus.done) ∧
    cleanTopics demoGoodResponse 120 "m1" =
      [⟨"Ethereum Rally", "Price moved", "ETH", 120, "m1"⟩] ∧
    ∃ resp, some demoGoodResponse = some resp ∧
      ¬ cleanTopics resp 120 "m1" = [] ∧
      (((setStageStatus
            (replaceTopics demoTaskStore "v1"
              [⟨"Ethereum Rally", "Price moved", "ETH", 120, "m1"⟩])
            "v1" ProcessingStatus.done).topics.filter
          (fun t => t.raw_content_id = demoTask.id)).map topicData =
        (cleanTopics resp 120 "m1").map inputData) ∧
      ((setStageStatus
            (replaceTopics demoTaskStore "v1"
              [⟨"Ethereum Rally", "Price moved", "ETH", 120, "m1"⟩])
            "v1" ProcessingStatus.done).topics.filter
          (fun t => ¬ t.raw_content_id = demoTask.id) =
        demoTaskStore.topics.filter
          (fun t => ¬ t.raw_content_id = demoTask.id)) ∧
      (∀ r ∈ (setStageStatus
            (replaceTopics demoTaskStore "v1"
              [⟨"Ethereum Rally", "Price moved", "ETH", 120, "m1"⟩])
            "v1" ProcessingStatus.done).raw_content,
        r.id = demoTask.id → r.topics_status = ProcessingStatus.done) := by
  refine ⟨rfl, by decide, ?_⟩
  exact processContent_success demoTaskStore demoTask (some demoGoodResponse)
    120 "m1" _ rfl

/-- C6.  `processContent` trims every returned entry and drops the ones whose
trimmed name or content is empty; when nothing survives (or the parsed payload
is absent) it throws `'LLM returned no topics'`, so the worker's catch block
routes the task to `handleTaskError`, which marks it `'error'` — no topics are
stored. -/
theorem processContent_empty_guard (s : SQLiteStorage)
    (content : RawContentRecord) (parsed : Option TopicsResponse) (gAt : Int)
    (model : String)
    (h : parsed = none ∨
      ∃ resp, parsed = some resp ∧ cleanTopics resp gAt model = []) :
    processContent s content parsed gAt model =
      Except.error "LLM returned no topics" ∧
    (runTopicTask s content parsed gAt model).topics = s.topics ∧
    (∀ r ∈ (runTopicTask s content parsed gAt model).raw_content,
      r.id = content.id → r.topics_status = ProcessingStatus.error) ∧
    (∀ (resp : TopicsResponse) (t : TopicInput),
      t ∈ cleanTopics resp gAt model ↔
      ∃ m ∈ resp.topics, t = trimEntry gAt model m ∧
        ¬ t.name = "" ∧ ¬ t.content = "") := by
  have herr : processContent s content parsed gAt model =
      Except.error "LLM returned no topics" := by
    rcases h with rfl | ⟨resp, rfl, hc⟩
    · rfl
    · simp only [processContent, hc]
  refine ⟨herr, ?_, ?_, ?_⟩
  · simp only [runTopicTask, herr]
    rfl
  · simp only [runTopicTask, herr]
    intro r hr hid
    simp only [handleTaskError, setStageStatus] at hr
    obtain ⟨x, hx, rfl⟩ := List.mem_map.mp hr
    by_cases hxid : x.id = content.id
    · simp [hxid]
    · rw [if_neg hxid] at hid ⊢
      exact absurd hid hxid
  · intro resp t
    unfold cleanTopics
    constructor
    · intro ht
      have ht1 := (List.mem_filter.mp ht).1
      have ht2 := (List.mem_filter.mp ht).2
      obtain ⟨m, hm, rfl⟩ := List.mem_map.mp ht1
      simp only [decide_eq_true_eq] at ht2
      exact ⟨m, hm, rfl, ht2.1, ht2.2⟩
    · rintro ⟨m, hm, rfl, hn, hc⟩
      exact List.mem_filter.mpr
        ⟨List.mem_map.mpr ⟨m, hm, rfl⟩, by simp [hn, hc]⟩

/-- Witness for C6 on the spec's example response
`{topics: [{name: " ", content: " ", keyowrds: "x"}]}`: the call fails with
the explicit error and the task ends in status `'error'` with the topics
table untouched. -/
theorem processContent_empty_guard_witness :
    cleanTopics demoBlankResponse 120 "m1" = [] ∧
    processContent demoTaskStore demoTask (some demoBlankResponse) 120 "m1" =
      Except.error "LLM returned no topics" ∧
    (runTopicTask demoTaskStore demoTask (some demoBlankResponse) 120
        "m1").topics = demoTaskStore.topics ∧
    (runTopicTask demoTaskStore demoTask (some demoBlankResponse) 120
        "m1").raw_content[0]? =
      some ⟨"v1", "yt", "A", "t1", "ETH rallies", 100,
        ProcessingStatus.error⟩ := by
  have h := processContent_empty_guard demoTaskStore demoTask
    (some demoBlankResponse) 120 "m1"
    (Or.inr ⟨demoBlankResponse, rfl, by decide⟩)
  exact ⟨by decide, h.1, h.2.1, by decide⟩

theorem runWorker_front_continues (pre rest : List IterOutcome)
    (hpre : ∀ e ∈ pre, e.continues = true) :
    runWorker (pre ++ rest) =
      ((runWorker rest).1, (runWorker rest).2 + pre.length) := by
  revert hpre
  induction pre with
  | nil => intro _; simp [List.nil_append]
  | cons e pre ih =>
    intro hpre
    have he := hpre e (List.mem_cons_self e pre)
    simp only [List.cons_append, runWorker, he, if_true, List.append_eq]
    rw [ih (fun x hx => hpre x (List.mem_cons_of_mem e hx))]
    simp [Nat.add_assoc]

/-- C8.  If a worker's error hook throws at some iteration, the exception
escapes the loop (the hook call sits inside the catch block) and is caught
only by the `.catch` attached at the spawn boundary in `start`: that worker
ends as `crashed` right after the failing iteration — the rest of its script
never runs and it is not restarted — while the pool still yields one result
per worker (the process does not abort) and every other worker's outcome is
exactly what its own script produces, unaffected. -/
theorem workerPool_hook_crash (pre post : List IterOutcome) (ev : IterOutcome)
    (scripts : List (List IterOutcome)) (i : Nat)
    (hpre : ∀ e ∈ pre, e.continues = true)
    (hev : ev.continues = false)
    (hscript : scripts[i]? = some (pre ++ ev :: post)) :
    (startPool scripts)[i]? = some (WorkerEnd.crashed, pre.length + 1) ∧
    (startPool scripts).length = scripts.length ∧
    (∀ j : Nat, (startPool scripts)[j]? = (scripts[j]?).map runWorker) := by
  have hcrash : runWorker (ev :: post) = (WorkerEnd.crashed, 1) := by
    simp [runWorker, hev]
  have hrun : runWorker (pre ++ ev :: post) =
      (WorkerEnd.crashed, pre.length + 1) := by
    rw [runWorker_front_continues pre (ev :: post) hpre, hcrash]
    simp [Nat.add_comm]
  refine ⟨?_, by simp [startPool], fun j => by
    simp [startPool, List.getElem?_map]⟩
  simp [startPool, List.getElem?_map, hscript, hrun]

/-- Witness for C8: in a three-worker pool where worker 1's hook throws at
its third iteration, worker 1 crashes after exactly 3 iterations (its fourth
scripted iteration never runs) and workers 0 and 2 still stop normally. -/
theorem workerPool_hook_crash_witness :
    (startPool demoScripts)[1]? = some (WorkerEnd.crashed, 3) ∧
    (startPool demoScripts).length = 3 ∧
    (startPool demoScripts)[0]? = some (WorkerEnd.stopped, 1) ∧
    (startPool demoScripts)[2]? = some (WorkerEnd.stopped, 1) := by
  have h := workerPool_hook_crash demoCrashPre demoCrashPost
    (IterOutcome.taskFail false) demoScripts 1 (by decide) (by decide)
    (by decide)
  exact ⟨h.1, h.2.1, by decide, by decide⟩

theorem mem_joinTopicRaw {s : SQLiteStorage} {p : TopicRow × RawContentRow} :
    p ∈ joinTopicRaw s ↔
    p.1 ∈ s.topics ∧ p.2 ∈ s.raw_content ∧ p.2.id = p.1.raw_content_id := by
  unfold joinTopicRaw
  constructor
  · intro hp
    obtain ⟨t, ht, hp2⟩ := List.mem_flatMap.mp hp
    obtain ⟨rc, hrc, rfl⟩ := List.mem_map.mp hp2
    have h2 := List.mem_filter.mp hrc
    exact ⟨ht, h2.1, by simpa using h2.2⟩
  · rintro ⟨h1, h2, h3⟩
    apply List.mem_flatMap.mpr
    refine ⟨p.1, h1, ?_⟩
    apply List.mem_map.mpr
    exact ⟨p.2, List.mem_filter.mpr ⟨h2, by simpa using h3⟩, Prod.mk.eta⟩

theorem dateRangeFilter_some {w : Int} {n : String}
    (hn : ¬ n = "") (p : TopicRow × RawContentRow) :
    dateRangeFilter w (some n) p = true ↔
    w ≤ p.2.publish_date ∧ normalizeAccount p.2.account = n := by
  unfold dateRangeFilter
  simp [hn]

theorem dateRangeFilter_none {w : Int} (p : TopicRow × RawContentRow) :
    dateRangeFilter w none p = true ↔ w ≤ p.2.publish_date := by
  unfold dateRangeFilter
  simp

theorem queryPipeline_correct (s : SQLiteStorage) (w : Int)
    (nopt : Option String) (P : RawContentRow → Prop)
    (hP : ∀ p : TopicRow × RawContentRow,
      dateRangeFilter w nopt p = true ↔ w ≤ p.2.publish_date ∧ P p.2) :
    ((((joinTopicRaw s).filter (dateRangeFilter w nopt)).insertionSort
        queryOrder).map (projectSummary s)).Pairwise
      (fun a b => b.publishDate ≤ a.publishDate) ∧
    (∀ x : TopicSummaryRow,
      x ∈ (((joinTopicRaw s).filter (dateRangeFilter w nopt)).insertionSort
        queryOrder).map (projectSummary s) ↔
      ∃ t ∈ s.topics, ∃ rc ∈ s.raw_content,
        rc.id = t.raw_content_id ∧ w ≤ rc.publish_date ∧ P rc ∧
        x = projectSummary s (t, rc)) := by
  set L : List (TopicRow × RawContentRow) :=
    (joinTopicRaw s).filter (dateRangeFilter w nopt) with hL
  constructor
  · have hsorted : List.Sorted queryOrder (L.insertionSort queryOrder) :=
      List.sorted_insertionSort queryOrder L
    apply List.pairwise_map.mpr
    apply List.Pairwise.imp ?_ hsorted
    intro a b hab
    rcases hab with hlt | ⟨heq, _⟩
    · exact le_of_lt hlt
    · exact le_of_eq heq
  · intro x
    constructor
    · intro hx
      obtain ⟨y, hy, rfl⟩ := List.mem_map.mp hx
      have hyL : y ∈ L := (List.perm_insertionSort queryOrder L).mem_iff.mp hy
      have hyj := List.mem_filter.mp hyL
      obtain ⟨ht, hrc, hid⟩ := mem_joinTopicRaw.mp hyj.1
      obtain ⟨hwle, hPy⟩ := (hP y).mp hyj.2
      exact ⟨y.1, ht, y.2, hrc, hid, hwle, hPy, by rw [Prod.mk.eta]⟩
    · rintro ⟨t, ht, rc, hrc, hid, hwle, hPrc, rfl⟩
      apply List.mem_map.mpr
      refine ⟨(t, rc), ?_, rfl⟩
      apply (List.perm_insertionSort queryOrder L).mem_iff.mpr
      apply List.mem_filter.mpr
      exact ⟨mem_joinTopicRaw.mpr ⟨ht, hrc, hid⟩,
        (hP (t, rc)).mpr ⟨hwle, hPrc⟩⟩

/-- C9.  For `days ≥ 1` (so the `Math.max` clamp is inactive),
`getTopicsByDateRange(days, account?)` uses the inclusive lower bound
`now − days·24h` and returns rows ordered by publish date descending, for
both forms of the call.  Without an account filter the result contains
exactly the topics whose owning item lies on or after the bound — an item
exactly `days·24h` old is included, one `days·24h + 1s` old is not.  With an
account filter `f` (whose normal form is non-empty, the JavaScript-truthiness
path that applies the filter at all) a row additionally requires
`LOWER(ltrim(account, '@'))` of the stored account to equal the same normal
form of `f`, so matching is insensitive to ASCII case and to leading `'@'`
characters on either side. -/
theorem getTopicsByDateRange_correct (s : SQLiteStorage) (now days : Int)
    (hdays : 1 ≤ days) :
    ((getTopicsByDateRange s now days none).Pairwise
      (fun a b => b.publishDate ≤ a.publishDate)) ∧
    (∀ x : TopicSummaryRow,
      x ∈ getTopicsByDateRange s now days none ↔
      ∃ t ∈ s.topics, ∃ rc ∈ s.raw_content,
        rc.id = t.raw_content_id ∧
        now - days * (24 * 60 * 60 * 1000) ≤ rc.publish_date ∧
        x = projectSummary s (t, rc)) ∧
    (∀ x ∈ getTopicsByDateRange s now days none,
      now - days * (24 * 60 * 60 * 1000) ≤ x.publishDate) ∧
    (∀ f : String, ¬ normalizeAccount f = "" →
      ((getTopicsByDateRange s now days (some f)).Pairwise
        (fun a b => b.publishDate ≤ a.publishDate)) ∧
      (∀ x : TopicSummaryRow,
        x ∈ getTopicsByDateRange s now days (some f) ↔
        ∃ t ∈ s.topics, ∃ rc ∈ s.raw_content,
          rc.id = t.raw_content_id ∧
          now - days * (24 * 60 * 60 * 1000) ≤ rc.publish_date ∧
          normalizeAccount rc.account = normalizeAccount f ∧
          x = projectSummary s (t, rc)) ∧
      (∀ x ∈ getTopicsByDateRange s now days (some f),
        now - days * (24 * 60 * 60 * 1000) ≤ x.publishDate)) := by
  have hunfoldN : getTopicsByDateRange s now days none =
      (((joinTopicRaw s).filter
          (dateRangeFilter (now - days * (24 * 60 * 60 * 1000))
            none)).insertionSort queryOrder).map (projectSummary s) := by
    simp only [getTopicsByDateRange, max_eq_left hdays]
  have hN := queryPipeline_correct s (now - days * (24 * 60 * 60 * 1000))
    none (fun _ => True)
    (fun p => by rw [dateRangeFilter_none]; simp)
  refine ⟨?_, ?_, ?_, ?_⟩
  · rw [hunfoldN]
    exact hN.1
  · intro x
    rw [hunfoldN, hN.2 x]
    constructor
    · rintro ⟨t, ht, rc, hrc, hid, hwle, -, rfl⟩
      exact ⟨t, ht, rc, hrc, hid, hwle, rfl⟩
    · rintro ⟨t, ht, rc, hrc, hid, hwle, rfl⟩
      exact ⟨t, ht, rc, hrc, hid, hwle, trivial, rfl⟩
  · intro x hx
    rw [hunfoldN] at hx
    obtain ⟨t, -, rc, -, -, hwle, -, rfl⟩ := (hN.2 x).mp hx
    exact hwle
  · intro f hf
    have hfne : ¬ f = "" := by
      intro h0
      exact hf (by rw [h0]; rfl)
    have hunfoldF : getTopicsByDateRange s now days (some f) =
        (((joinTopicRaw s).filter
            (dateRangeFilter (now - days * (24 * 60 * 60 * 1000))
              (some (normalizeAccount f)))).insertionSort queryOrder).map
          (projectSummary s) := by
      simp only [getTopicsByDateRange, max_eq_left hdays, hfne, not_false_iff,
        if_true]
    have hF := queryPipeline_correct s (now - days * (24 * 60 * 60 * 1000))
      (some (normalizeAccount f))
      (fun rc => normalizeAccount rc.account = normalizeAccount f)
      (fun p => dateRangeFilter_some hf p)
    refine ⟨?_, ?_, ?_⟩
    · rw [hunfoldF]
      exact hF.1
    · intro x
      rw [hunfoldF]
      exact hF.2 x
    · intro x hx
      rw [hunfoldF] at hx
      obtain ⟨t, -, rc, -, -, hwle, -, rfl⟩ := (hF.2 x).mp hx
      exact hwle

/-- Witness for C9: at query time 700000000 with `days = 7`, the unfiltered
call returns the Alice item published exactly 7×24h earlier and not the one
7×24h + 1s earlier, sorted newest-first; the same boundary holds under the
filter `"@ALICE"`, which matches the stored account `"Alice"` up to case and
the leading `'@'`. -/
theorem getTopicsByDateRange_correct_witness :
    (1 : Int) ≤ 7 ∧ ¬ normalizeAccount "@ALICE" = "" ∧
    projectSummary demoWindowStore (demoTIn, demoRcIn) ∈
      getTopicsByDateRange demoWindowStore 700000000 7 none ∧
    ¬ projectSummary demoWindowStore (demoTOut, demoRcOut) ∈
      getTopicsByDateRange demoWindowStore 700000000 7 none ∧
    (getTopicsByDateRange demoWindowStore 700000000 7 none).Pairwise
      (fun a b => b.publishDate ≤ a.publishDate) ∧
    projectSummary demoWindowStore (demoTIn, demoRcIn) ∈
      getTopicsByDateRange demoWindowStore 700000000 7 (some "@ALICE") ∧
    ¬ projectSummary demoWindowStore (demoTOut, demoRcOut) ∈
      getTopicsByDateRange demoWindowStore 700000000 7 (some "@ALICE") ∧
    (getTopicsByDateRange demoWindowStore 700000000 7
        (some "@ALICE")).Pairwise
      (fun a b => b.publishDate ≤ a.publishDate) := by
  have h := getTopicsByDateRange_correct demoWindowStore 700000000 7
    (by decide)
  have hfil := h.2.2.2 "@ALICE" (by decide)
  refine ⟨by decide, by decide, ?_, ?_, h.1, ?_, ?_, hfil.1⟩
  · exact (h.2.1 _).mpr ⟨demoTIn, by decide, demoRcIn, by decide, by decide,
      by decide, rfl⟩
  · intro hx
    exact absurd (h.2.2.1 _ hx) (by decide)
  · exact (hfil.2.1 _).mpr ⟨demoTIn, by decide, demoRcIn, by decide,
      by decide, by decide, by decide, rfl⟩
  · intro hx
    exact absurd (hfil.2.2 _ hx) (by decide)

/-- Witness for C10 at `days = 0` on a concrete store. -/
theorem getTopicsByDateRange_clamps_witness :
    (0 : Int) ≤ 1 ∧
    getTopicsByDateRange
        ⟨[⟨"a", "yt", "A", "t", "c", 50, ProcessingStatus.done⟩],
         [⟨1, "a", "N", "C", "K", 60, "m"⟩], [], 2⟩ 100 0 none =
      getTopicsByDateRange
        ⟨[⟨"a", "yt", "A", "t", "c", 50, ProcessingStatus.done⟩],
         [⟨1, "a", "N", "C", "K", 60, "m"⟩], [], 2⟩ 100 1 none :=
  ⟨by decide, getTopicsByDateRange_clamps _ 100 0 none (by decide)⟩

end Contextify
